import Mathlib

/-
Verification of the audiocomplib dynamics-processing library.

The Python/NumPy source is shallowly embedded over the real numbers:
NumPy float arrays become lists of reals, `np.where`/branching becomes
`if`, `np.exp`/`np.log10`/`**` become `Real.exp`/`Real.logb 10`/`Real.rpow`,
and a raised Python exception becomes an `Except.error` (a `ValueError`
from explicit validation, an `IndexError` from out-of-bounds indexing).

The native (Cython) `apply_gain_reduction` shipped by the package is the
accelerated twin of the pure-Python reference `smooth_gain_reduction`
(file smooth_gain_reduction_py.py); the reference implementation is the
one embedded here.
-/

namespace Audiocomplib

open Classical

/-- Python `int(x)` on a float: truncation toward zero. -/
noncomputable def pyInt (x : ℝ) : ℤ :=
  if 0 ≤ x then ⌊x⌋ else ⌈x⌉

/-- The 1e-10 floor used in `np.maximum(max_amplitude, 1e-10)` to avoid `log(0)`. -/
def eps : ℝ := 1e-10

/-- Parameters of `AudioCompressor.__init__` (threshold dB, compression
ratio, attack ms, release ms, knee width dB). -/
structure CompressorParams where
  threshold : ℝ
  ratio : ℝ
  attack_time_ms : ℝ
  release_time_ms : ℝ
  knee_width : ℝ

/-- Parameters of `PeakLimiter.__init__` (threshold dB, attack ms, release ms). -/
structure LimiterParams where
  threshold : ℝ
  attack_time_ms : ℝ
  release_time_ms : ℝ

/-- `int(time_ms * sample_rate / 1000)` — time constant in samples. -/
noncomputable def time_samples (time_ms sample_rate : ℝ) : ℤ :=
  pyInt (time_ms * sample_rate / 1000)

/-- `np.exp(-1 / time_samples) if time_samples > 0 else 0` — the one-pole
smoothing coefficient, identical in `AudioCompressor` and `PeakLimiter`. -/
noncomputable def smoothing_coeff (time_ms sample_rate : ℝ) : ℝ :=
  if 0 < time_samples time_ms sample_rate then
    Real.exp (-1 / (time_samples time_ms sample_rate : ℝ))
  else 0

/-- Attack coefficient of `AudioCompressor._calculate_gain_reduction`. -/
noncomputable def attack_coeff (p : CompressorParams) (sample_rate : ℝ) : ℝ :=
  smoothing_coeff p.attack_time_ms sample_rate

/-- Release coefficient of `AudioCompressor._calculate_gain_reduction`. -/
noncomputable def release_coeff (p : CompressorParams) (sample_rate : ℝ) : ℝ :=
  smoothing_coeff p.release_time_ms sample_rate

/-- `threshold_linear = 10 ** (threshold / 20)`. -/
noncomputable def threshold_linear (p : CompressorParams) : ℝ :=
  (10 : ℝ) ^ (p.threshold / 20)

/-- Number of samples of a (channels × samples) block: the length of the
first channel (NumPy shape axis 1). -/
def numSamples (sig : List (List ℝ)) : ℕ :=
  (sig.headD []).length

/-- A block is a rank-2 (channels, samples) array: at least one channel
(a channel-less list corresponds to a rank-1 empty array) and all
channels of equal length. -/
def rank2 (sig : List (List ℝ)) : Bool :=
  !sig.isEmpty && sig.all fun ch => ch.length == numSamples sig

/-- `np.max(np.abs(signal), axis=0)` at sample index `i`: the peak
magnitude across channels. -/
noncomputable def max_amplitude (sig : List (List ℝ)) (i : ℕ) : ℝ :=
  (sig.map fun ch => |ch.getD i 0|).foldr max 0

/-- `amplitude_dB = 20 * np.log10(np.maximum(max_amplitude, 1e-10))`. -/
noncomputable def amplitude_dB (m : ℝ) : ℝ :=
  20 * Real.logb 10 (max m eps)

/-- `AudioCompressor._compute_compression_factor` on one dB amplitude. -/
noncomputable def compression_factor (p : CompressorParams) (adB : ℝ) : ℝ :=
  if adB > p.threshold - p.knee_width / 2 ∧ adB < p.threshold then
    1 + (p.ratio - 1) * ((adB - (p.threshold - p.knee_width / 2)) / p.knee_width)
  else if adB ≥ p.threshold then p.ratio
  else 1

/-- The `desired_gain_reduction` value of
`AudioCompressor._calculate_gain_reduction` at one sample's peak
amplitude `m`. -/
noncomputable def desired_gain_reduction (p : CompressorParams) (m : ℝ) : ℝ :=
  if amplitude_dB m > p.threshold then
    threshold_linear p *
      (m / threshold_linear p) ^ (1 / compression_factor p (amplitude_dB m))
  else m

/-- The `target_gain_reduction` value
(`np.where(max_amplitude != 0, desired_gain_reduction / max_amplitude, 1.0)`). -/
noncomputable def target_gain_reduction (p : CompressorParams) (m : ℝ) : ℝ :=
  if m ≠ 0 then desired_gain_reduction p m / m else 1

/-- The whole per-sample target gain-reduction track of a block. -/
noncomputable def target_track (p : CompressorParams) (sig : List (List ℝ)) : List ℝ :=
  (List.range (numSamples sig)).map fun i => target_gain_reduction p (max_amplitude sig i)

/-- One step of the smoothing loop of `smooth_gain_reduction`: attack
coefficient when the target is below the previous smoothed value,
release coefficient otherwise. -/
noncomputable def smoothStep (a r prev x : ℝ) : ℝ :=
  if x < prev then a * prev + (1 - a) * x
  else r * prev + (1 - r) * x

/-- The smoothing loop from index 1 on, carrying the previous smoothed
value. -/
noncomputable def smoothFrom (a r : ℝ) : ℝ → List ℝ → List ℝ
  | _, [] => []
  | prev, x :: xs => smoothStep a r prev x :: smoothFrom a r (smoothStep a r prev x) xs

/-- `smooth_gain_reduction(gain_reduction, attack_coeff, release_coeff)`:
the first element is copied unsmoothed, later elements follow the
attack/release recurrence.  On an empty array the source line
`smoothed_gain_reduction[0] = gain_reduction[0]` raises `IndexError`,
embedded as `none`. -/
noncomputable def smooth_gain_reduction (g : List ℝ) (a r : ℝ) : Option (List ℝ) :=
  match g with
  | [] => none
  | x :: xs => some (x :: smoothFrom a r x xs)

/-- Python exceptions surfaced by the library. -/
inductive PyError where
  | valueError : PyError
  | indexError : PyError
deriving DecidableEq

/-- `AudioCompressor._calculate_gain_reduction`: validation (shape, then
sample rate), then the target track, then attack/release smoothing. -/
noncomputable def calculate_gain_reduction (p : CompressorParams)
    (sig : List (List ℝ)) (sample_rate : ℝ) : Except PyError (List ℝ) :=
  if rank2 sig then
    if sample_rate ≤ 0 then .error .valueError
    else
      match smooth_gain_reduction (target_track p sig)
          (attack_coeff p sample_rate) (release_coeff p sample_rate) with
      | none => .error .indexError
      | some g => .ok g
  else .error .valueError

/-- `AudioCompressor.process`: compute the gain-reduction track, then
multiply the signal by it (broadcast across channels). -/
noncomputable def process (p : CompressorParams)
    (sig : List (List ℝ)) (sample_rate : ℝ) : Except PyError (List (List ℝ)) :=
  (calculate_gain_reduction p sig sample_rate).map fun g =>
    sig.map fun ch => ch.zipWith (· * ·) g

/-- The only mutable state of an `AudioCompressor` instance: the stored
`_gain_reduction` array (`None` before the first processed block). -/
structure CompressorState where
  gain_reduction : Option (List ℝ)

/-- `AudioCompressor.process` as a state transformer on an instance:
`_calculate_gain_reduction` stores the freshly computed track in
`self._gain_reduction` and `process` multiplies the input by it; the
prior state is never read. -/
noncomputable def process_stateful (p : CompressorParams) (_s : CompressorState)
    (sig : List (List ℝ)) (sample_rate : ℝ) :
    Except PyError (List (List ℝ) × CompressorState) :=
  match calculate_gain_reduction p sig sample_rate with
  | .error e => .error e
  | .ok g => .ok (sig.map fun ch => ch.zipWith (· * ·) g, ⟨some g⟩)

/-- `PeakLimiter`'s `threshold_linear = 10 ** (threshold / 20)`. -/
noncomputable def limiter_threshold_linear (p : LimiterParams) : ℝ :=
  (10 : ℝ) ^ (p.threshold / 20)

/-- The limiter's per-sample target:
`np.where(max_amplitude > threshold_linear, threshold_linear / max_amplitude, 1.0)`. -/
noncomputable def limiter_target (p : LimiterParams) (m : ℝ) : ℝ :=
  if m > limiter_threshold_linear p then limiter_threshold_linear p / m else 1

/-- The limiter's per-sample target track of a block. -/
noncomputable def limiter_track (p : LimiterParams) (sig : List (List ℝ)) : List ℝ :=
  (List.range (numSamples sig)).map fun i => limiter_target p (max_amplitude sig i)

/-- `PeakLimiter._calculate_gain_reduction`: shape validation only (no
sample-rate check in the source), then target track and smoothing. -/
noncomputable def limiter_calculate_gain_reduction (p : LimiterParams)
    (sig : List (List ℝ)) (sample_rate : ℝ) : Except PyError (List ℝ) :=
  if rank2 sig then
    match smooth_gain_reduction (limiter_track p sig)
        (smoothing_coeff p.attack_time_ms sample_rate)
        (smoothing_coeff p.release_time_ms sample_rate) with
    | none => .error .indexError
    | some g => .ok g
  else .error .valueError

/-- `PeakLimiter.process`. -/
noncomputable def limiter_process (p : LimiterParams)
    (sig : List (List ℝ)) (sample_rate : ℝ) : Except PyError (List (List ℝ)) :=
  (limiter_calculate_gain_reduction p sig sample_rate).map fun g =>
    sig.map fun ch => ch.zipWith (· * ·) g

/-- The only mutable state of a `PeakLimiter` instance: the stored
`_gain_reduction` array (`None` before the first processed block). -/
structure LimiterState where
  gain_reduction : Option (List ℝ)

/-- `PeakLimiter.process` as a state transformer on an instance:
`_calculate_gain_reduction` stores the freshly computed smoothed track in
`self._gain_reduction` and `process` multiplies the input by the returned
track; the prior state is never read. -/
noncomputable def limiter_process_stateful (p : LimiterParams) (_s : LimiterState)
    (sig : List (List ℝ)) (sample_rate : ℝ) :
    Except PyError (List (List ℝ) × LimiterState) :=
  match limiter_calculate_gain_reduction p sig sample_rate with
  | .error e => .error e
  | .ok g => .ok (sig.map fun ch => ch.zipWith (· * ·) g, ⟨some g⟩)

/-- Modelled from the spec: the seeded (realtime/streaming) smoothing
mode is not under src/ — the shipped native `apply_gain_reduction` and
the `realtime=True` compressor used by the bundled example are absent,
and the in-src reference `smooth_gain_reduction` takes no seed.  Spec
§4.3: the optional seed is "the previous sample's smoothed value", so
with a seed sample 0 is smoothed against the seed as the previous value
(the reading under which §4.3's asymmetric attack/release recurrence and
§8's streaming-equivalence property are coherent); with no seed the
first target value is used unsmoothed, as in the in-src reference. -/
noncomputable def smooth_gain_reduction_seeded (g : List ℝ) (a r : ℝ) :
    Option ℝ → List ℝ
  | some s => smoothFrom a r s g
  | none =>
    match g with
    | [] => []
    | x :: xs => x :: smoothFrom a r x xs

/-- Modelled from the spec: the compressor's makeup gain
(`makeup_gain` / `set_makeup_gain`, used by the bundled realtime example)
is not under src/.  Spec §4.4: output = signal ⊙ smoothed track, then,
for a compressor, scaled by `10 ** (makeup_gain / 20)`. -/
noncomputable def process_with_makeup (p : CompressorParams) (makeup_gain : ℝ)
    (sig : List (List ℝ)) (sample_rate : ℝ) : Except PyError (List (List ℝ)) :=
  (calculate_gain_reduction p sig sample_rate).map fun g =>
    sig.map fun ch =>
      (ch.zipWith (· * ·) g).map fun x => x * (10 : ℝ) ^ (makeup_gain / 20)

/-- The compressor parameter set of the spec's concrete scenario and of
the library defaults except for a hard knee: threshold −10 dB, ratio 4,
attack 1 ms, release 100 ms, knee width 0. -/
def stdParams : CompressorParams := ⟨-10, 4, 1, 100, 0⟩

/-- A soft-knee parameter set: threshold 0 dB, ratio 4, knee width 4 dB. -/
def kneeParams : CompressorParams := ⟨0, 4, 1, 100, 4⟩

/-- The same parameter set with a hard knee (knee width 0). -/
def kneeParamsHard : CompressorParams := ⟨0, 4, 1, 100, 0⟩

/-- The `PeakLimiter` defaults: threshold −1 dB, attack 0.1 ms, release 1 ms. -/
def limParams : LimiterParams := ⟨-1, 0.1, 1⟩

/-- An extreme parameter set: threshold −240 dB (below the −200 dB floor
imposed by the 1e-10 amplitude clamp), ratio 4, hard knee. -/
def cexParams : CompressorParams := ⟨-240, 4, 1, 100, 0⟩

theorem smoothFrom_length (a r : ℝ) : ∀ (prev : ℝ) (xs : List ℝ),
    (smoothFrom a r prev xs).length = xs.length
  | _, [] => rfl
  | prev, x :: xs => by
    simp [smoothFrom, smoothFrom_length a r (smoothStep a r prev x) xs]

theorem smoothFrom_append (a r : ℝ) : ∀ (xs : List ℝ) (s : ℝ) (ys : List ℝ),
    smoothFrom a r s (xs ++ ys) =
      smoothFrom a r s xs ++ smoothFrom a r ((smoothFrom a r s xs).getLastD s) ys
  | [], s, ys => by simp [smoothFrom]
  | x :: xs, s, ys => by
    simp only [List.cons_append, smoothFrom, List.getLastD_cons, List.append_eq,
      smoothFrom_append a r xs (smoothStep a r s x) ys]

/-- C4: processing a target track as one whole block (no seed) produces the
same smoothed track as processing it as two consecutive blocks where the
second block's envelope seed is the final smoothed value of the first
block. -/
theorem streaming_equivalence (a r : ℝ) (xs ys : List ℝ) (hxs : xs ≠ []) :
    smooth_gain_reduction (xs ++ ys) a r =
      (smooth_gain_reduction xs a r).map fun l1 =>
        l1 ++ smooth_gain_reduction_seeded ys a r (some (l1.getLastD 0)) := by
  cases xs with
  | nil => exact absurd rfl hxs
  | cons x xs =>
    simp only [List.cons_append, smooth_gain_reduction, Option.map_some',
      smooth_gain_reduction_seeded, List.getLastD_cons]
    rw [smoothFrom_append]

/-- C4 witness: a concrete three-sample track split after two samples. -/
theorem streaming_equivalence_witness :
    smooth_gain_reduction ([1, (1:ℝ)/2] ++ [(1:ℝ)/4]) (1/2) (1/3) =
      (smooth_gain_reduction [1, (1:ℝ)/2] (1/2) (1/3)).map fun l1 =>
        l1 ++ smooth_gain_reduction_seeded [(1:ℝ)/4] (1/2) (1/3) (some (l1.getLastD 0)) :=
  streaming_equivalence (1/2) (1/3) [1, (1:ℝ)/2] [(1:ℝ)/4] (by simp)

/-- C6: the compressor's process output with makeup gain `g` equals the
output with makeup gain 0 multiplied element-wise by `10 ^ (g / 20)`: the
compressed signal is scaled by the makeup factor after the smoothed
gain-reduction track is applied. -/
theorem makeup_gain_linearity (p : CompressorParams) (g : ℝ)
    (sig : List (List ℝ)) (sample_rate : ℝ) :
    process_with_makeup p g sig sample_rate =
      Except.map (fun out => out.map fun ch => ch.map fun x => x * (10 : ℝ) ^ (g / 20))
        (process_with_makeup p 0 sig sample_rate) := by
  unfold process_with_makeup
  cases calculate_gain_reduction p sig sample_rate with
  | error e => rfl
  | ok gr =>
    simp [Except.map, List.map_map, Function.comp_def, Real.rpow_zero]

theorem calculate_head (p : CompressorParams) (sig : List (List ℝ)) (sample_rate : ℝ)
    (g : List ℝ) (hg : calculate_gain_reduction p sig sample_rate = Except.ok g) :
    g.headD 0 = target_gain_reduction p (max_amplitude sig 0) := by
  unfold calculate_gain_reduction at hg
  by_cases h2 : rank2 sig
  · rw [if_pos h2] at hg
    by_cases hsr : sample_rate ≤ 0
    · rw [if_pos hsr] at hg
      exact absurd hg (by simp)
    · rw [if_neg hsr] at hg
      rcases htt : target_track p sig with _ | ⟨t, ts⟩
      · rw [htt] at hg
        exact absurd hg (by simp [smooth_gain_reduction])
      · rw [htt] at hg
        simp only [smooth_gain_reduction] at hg
        have hgv : g = t :: smoothFrom (attack_coeff p sample_rate)
            (release_coeff p sample_rate) t ts := by
          cases hg; rfl
        have hn : numSamples sig ≠ 0 := by
          intro h0
          rw [target_track, h0] at htt
          simp at htt
        obtain ⟨m, hm⟩ := Nat.exists_eq_succ_of_ne_zero hn
        have : target_track p sig =
            target_gain_reduction p (max_amplitude sig 0) ::
              (List.map (fun i => target_gain_reduction p (max_amplitude sig i))
                (List.map Nat.succ (List.range m))) := by
          rw [target_track, hm, List.range_succ_eq_map]
          simp
        rw [htt] at this
        injection this with h1 _
        rw [hgv, List.headD_cons, h1]
  · rw [if_neg h2] at hg
    exact absurd hg (by simp)

theorem limiter_calculate_head (p : LimiterParams) (sig : List (List ℝ))
    (sample_rate : ℝ) (g : List ℝ)
    (hg : limiter_calculate_gain_reduction p sig sample_rate = Except.ok g) :
    g.headD 0 = limiter_target p (max_amplitude sig 0) := by
  unfold limiter_calculate_gain_reduction at hg
  by_cases h2 : rank2 sig
  · rw [if_pos h2] at hg
    rcases htt : limiter_track p sig with _ | ⟨t, ts⟩
    · rw [htt] at hg
      exact absurd hg (by simp [smooth_gain_reduction])
    · rw [htt] at hg
      simp only [smooth_gain_reduction] at hg
      have hgv : g = t :: smoothFrom (smoothing_coeff p.attack_time_ms sample_rate)
          (smoothing_coeff p.release_time_ms sample_rate) t ts := by
        cases hg; rfl
      have hn : numSamples sig ≠ 0 := by
        intro h0
        rw [limiter_track, h0] at htt
        simp at htt
      obtain ⟨m, hm⟩ := Nat.exists_eq_succ_of_ne_zero hn
      have : limiter_track p sig =
          limiter_target p (max_amplitude sig 0) ::
            (List.map (fun i => limiter_target p (max_amplitude sig i))
              (List.map Nat.succ (List.range m))) := by
        rw [limiter_track, hm, List.range_succ_eq_map]
        simp
      rw [htt] at this
      injection this with h1 _
      rw [hgv, List.headD_cons, h1]
  · rw [if_neg h2] at hg
    exact absurd hg (by simp)

/-- C10: for both the compressor and the limiter, `process` is a pure
function of the parameters and the current block: the instance state left
by arbitrary earlier `process` calls has no influence on the output or on
the freshly stored gain-reduction track, and every block's first smoothed
sample is its raw target value. -/
theorem process_state_independent (p : CompressorParams) (pl : LimiterParams)
    (s1 s2 : CompressorState) (t1 t2 : LimiterState)
    (sig : List (List ℝ)) (sample_rate : ℝ) :
    process_stateful p s1 sig sample_rate = process_stateful p s2 sig sample_rate ∧
    limiter_process_stateful pl t1 sig sample_rate =
      limiter_process_stateful pl t2 sig sample_rate ∧
    (∀ g, calculate_gain_reduction p sig sample_rate = Except.ok g →
      g.headD 0 = target_gain_reduction p (max_amplitude sig 0)) ∧
    (∀ g, limiter_calculate_gain_reduction pl sig sample_rate = Except.ok g →
      g.headD 0 = limiter_target pl (max_amplitude sig 0)) :=
  ⟨rfl, rfl, fun g hg => calculate_head p sig sample_rate g hg,
    fun g hg => limiter_calculate_head pl sig sample_rate g hg⟩

/-- C10 witness: for each processor, a fresh instance and an instance
carrying a stored track produce identical results on the concrete
one-sample block. -/
theorem process_state_independent_witness :
    process_stateful stdParams ⟨none⟩ [[1]] 44100 =
        process_stateful stdParams ⟨some [1, (1:ℝ)/2]⟩ [[1]] 44100 ∧
    limiter_process_stateful limParams ⟨none⟩ [[1]] 44100 =
        limiter_process_stateful limParams ⟨some [1, (1:ℝ)/2]⟩ [[1]] 44100 ∧
    (∀ g, calculate_gain_reduction stdParams [[1]] 44100 = Except.ok g →
      g.headD 0 = target_gain_reduction stdParams (max_amplitude [[1]] 0)) ∧
    (∀ g, limiter_calculate_gain_reduction limParams [[1]] 44100 = Except.ok g →
      g.headD 0 = limiter_target limParams (max_amplitude [[1]] 0)) :=
  process_state_independent stdParams limParams ⟨none⟩ ⟨some [1, (1:ℝ)/2]⟩
    ⟨none⟩ ⟨some [1, (1:ℝ)/2]⟩ [[1]] 44100

/-- C9: processing a one-channel, zero-sample block is not handled: the
smoothing routine unconditionally assigns `smoothed[0] = target[0]`, which
on the empty track raises `IndexError`, so `process` raises instead of
returning an empty block. -/
theorem empty_block_process_raises :
    process ⟨-10, 4, 1, 100, 3⟩ [[]] 44100 = Except.error PyError.indexError := by
  have h2 : rank2 [([] : List ℝ)] = true := by
    simp [rank2, numSamples]
  have htt : target_track ⟨-10, 4, 1, 100, 3⟩ [[]] = [] := by
    simp [target_track, numSamples]
  unfold process calculate_gain_reduction
  rw [h2, if_pos rfl, if_neg (by norm_num), htt]
  rfl

theorem max_amplitude_single (x : ℝ) : max_amplitude [[x]] 0 = |x| := by
  simp only [max_amplitude, List.map_cons, List.map_nil, List.getD_cons_zero,
    List.foldr_cons, List.foldr_nil]
  exact max_eq_left (abs_nonneg x)

theorem amplitude_dB_one : amplitude_dB 1 = 0 := by
  unfold amplitude_dB
  rw [max_eq_left (by norm_num [eps]), Real.logb_one, mul_zero]

theorem threshold_linear_std : threshold_linear stdParams = (10 : ℝ) ^ (-(1 : ℝ)/2) := by
  unfold threshold_linear
  norm_num [stdParams]

theorem compression_factor_std_zero : compression_factor stdParams 0 = 4 := by
  unfold compression_factor
  rw [if_neg (by norm_num [stdParams]), if_pos (by norm_num [stdParams])]
  rfl

theorem inv_rpow_neg_half : ((10 : ℝ) ^ (-(1 : ℝ)/2))⁻¹ = (10 : ℝ) ^ ((1 : ℝ)/2) := by
  rw [show -(1 : ℝ)/2 = -((1 : ℝ)/2) by ring,
    Real.rpow_neg (by norm_num : (0 : ℝ) ≤ 10), inv_inv]

theorem target_one_eval : target_gain_reduction stdParams 1 = (10 : ℝ) ^ (-(3 : ℝ)/8) := by
  unfold target_gain_reduction desired_gain_reduction
  rw [if_pos one_ne_zero, amplitude_dB_one,
    if_pos (by norm_num [stdParams] : (0 : ℝ) > stdParams.threshold),
    compression_factor_std_zero, threshold_linear_std, div_one, one_div,
    inv_rpow_neg_half, ← Real.rpow_mul (by norm_num : (0 : ℝ) ≤ 10),
    ← Real.rpow_add (by norm_num : (0 : ℝ) < 10)]
  norm_num

theorem target_track_std_single :
    target_track stdParams [[1]] = [(10 : ℝ) ^ (-(3 : ℝ)/8)] := by
  unfold target_track
  rw [show numSamples [[(1 : ℝ)]] = 1 from rfl, show List.range 1 = [0] from rfl,
    List.map_cons, List.map_nil, max_amplitude_single, abs_one, target_one_eval]

theorem calculate_std_single :
    calculate_gain_reduction stdParams [[1]] 44100 =
      Except.ok [(10 : ℝ) ^ (-(3 : ℝ)/8)] := by
  unfold calculate_gain_reduction
  rw [if_pos (by rfl), if_neg (by norm_num), target_track_std_single]
  rfl

theorem claimed_expr_eq :
    ((1 : ℝ) / (10 : ℝ) ^ ((-10 : ℝ)/20)) ^ ((1 : ℝ)/4 - 1) = (10 : ℝ) ^ (-(3 : ℝ)/8) := by
  rw [show ((-10 : ℝ)/20) = -(1 : ℝ)/2 by norm_num, one_div, inv_rpow_neg_half,
    ← Real.rpow_mul (by norm_num : (0 : ℝ) ≤ 10)]
  norm_num

theorem rpow_neg_three_eighths_bounds :
    0.42165 < (10 : ℝ) ^ (-(3 : ℝ)/8) ∧ (10 : ℝ) ^ (-(3 : ℝ)/8) < 0.42175 := by
  have hxpos : (0 : ℝ) < (10 : ℝ) ^ ((3 : ℝ)/8) := Real.rpow_pos_of_pos (by norm_num) _
  have hx : ((10 : ℝ) ^ ((3 : ℝ)/8)) ^ (8 : ℕ) = 1000 := by
    rw [← Real.rpow_natCast ((10 : ℝ) ^ ((3 : ℝ)/8)) 8,
      ← Real.rpow_mul (by norm_num : (0 : ℝ) ≤ 10),
      show (3 : ℝ)/8 * (8 : ℕ) = ((3 : ℕ) : ℝ) by norm_num,
      Real.rpow_natCast]
    norm_num
  have ha : (2.3713 : ℝ) < (10 : ℝ) ^ ((3 : ℝ)/8) := by
    apply lt_of_pow_lt_pow_left 8 (le_of_lt hxpos)
    rw [hx]; norm_num
  have hb : (10 : ℝ) ^ ((3 : ℝ)/8) < 2.3714 := by
    apply lt_of_pow_lt_pow_left 8 (by norm_num : (0 : ℝ) ≤ 2.3714)
    rw [hx]; norm_num
  have hneg : (10 : ℝ) ^ (-(3 : ℝ)/8) = ((10 : ℝ) ^ ((3 : ℝ)/8))⁻¹ := by
    rw [show -(3 : ℝ)/8 = -((3 : ℝ)/8) by ring, Real.rpow_neg (by norm_num : (0 : ℝ) ≤ 10)]
  constructor
  · rw [hneg]
    have h1 : (0.42165 : ℝ) < (2.3714 : ℝ)⁻¹ := by norm_num
    have h2 : (2.3714 : ℝ)⁻¹ < ((10 : ℝ) ^ ((3 : ℝ)/8))⁻¹ := inv_lt_inv_of_lt hxpos hb
    linarith
  · rw [hneg]
    have h1 : ((10 : ℝ) ^ ((3 : ℝ)/8))⁻¹ < (2.3713 : ℝ)⁻¹ := inv_lt_inv_of_lt (by norm_num) ha
    have h2 : (2.3713 : ℝ)⁻¹ < 0.42175 := by norm_num
    linarith

/-- C3 counterexample: in the concrete scenario (threshold −10 dB, ratio 4,
hard knee, input [[1.0]] at 44100 Hz) the computed target gain reduction is
`(1 / 10^(−10/20))^(1/4 − 1)`, but that value is below 0.56225, so it is
not ≈ 0.5623 to three significant figures as the claim states (the
expression evaluates to ≈ 0.4217; 0.5623 is `10^(−1/4)`). -/
theorem concrete_scenario_value_counterexample :
    calculate_gain_reduction stdParams [[1]] 44100 =
        Except.ok [((1 : ℝ) / (10 : ℝ) ^ ((-10 : ℝ)/20)) ^ ((1 : ℝ)/4 - 1)] ∧
      ((1 : ℝ) / (10 : ℝ) ^ ((-10 : ℝ)/20)) ^ ((1 : ℝ)/4 - 1) < 0.56225 := by
  rw [claimed_expr_eq]
  exact ⟨calculate_std_single, lt_trans rpow_neg_three_eighths_bounds.2 (by norm_num)⟩

/-- C3 (amended): for threshold −10 dB, ratio 4, hard knee, attack 1 ms,
release 100 ms at 44100 Hz on the one-channel one-sample block [[1.0]], the
target gain reduction is `(1 / 10^(−10/20))^(1/4 − 1)` ≈ 0.4217 (the proved
bounds), and the smoothed track of the block is exactly that single target
value. -/
theorem concrete_scenario :
    target_gain_reduction stdParams (max_amplitude [[1]] 0) =
        ((1 : ℝ) / (10 : ℝ) ^ ((-10 : ℝ)/20)) ^ ((1 : ℝ)/4 - 1) ∧
      calculate_gain_reduction stdParams [[1]] 44100 =
        Except.ok [((1 : ℝ) / (10 : ℝ) ^ ((-10 : ℝ)/20)) ^ ((1 : ℝ)/4 - 1)] ∧
      0.42165 < ((1 : ℝ) / (10 : ℝ) ^ ((-10 : ℝ)/20)) ^ ((1 : ℝ)/4 - 1) ∧
      ((1 : ℝ) / (10 : ℝ) ^ ((-10 : ℝ)/20)) ^ ((1 : ℝ)/4 - 1) < 0.42175 := by
  rw [claimed_expr_eq, max_amplitude_single, abs_one]
  exact ⟨target_one_eval, calculate_std_single,
    rpow_neg_three_eighths_bounds.1, rpow_neg_three_eighths_bounds.2⟩

/-- C1 counterexample: at attack time 1 ms and sample rate 44100 the code's
attack coefficient is `exp(−1/44)` — the time in samples is truncated by
`int()` — which differs from the claimed `exp(−1/(1·44100/1000)) =
exp(−1/44.1)`. -/
theorem coeff_formula_counterexample :
    attack_coeff stdParams 44100 ≠
      Real.exp (-1 / (stdParams.attack_time_ms * 44100 / 1000)) := by
  have harg : stdParams.attack_time_ms * (44100 : ℝ) / 1000 = 441/10 := by
    norm_num [stdParams]
  have hts : time_samples stdParams.attack_time_ms 44100 = 44 := by
    unfold time_samples pyInt
    rw [if_pos (by rw [harg]; norm_num), harg]
    rw [Int.floor_eq_iff]
    constructor <;> norm_num
  have h1 : attack_coeff stdParams 44100 = Real.exp (-1/44) := by
    unfold attack_coeff smoothing_coeff
    rw [hts, if_pos (by norm_num)]
    norm_num
  rw [h1, harg, Ne, Real.exp_eq_exp]
  norm_num

theorem headD_eq_getD (l : List ℝ) (d : ℝ) : l.headD d = l.getD 0 d := by
  cases l <;> rfl

theorem cons_headD_tail (l : List ℝ) (d : ℝ) (h : l ≠ []) :
    l.headD d :: l.tail = l := by
  cases l with
  | nil => exact absurd rfl h
  | cons x xs => rfl

theorem smoothFrom_getD_succ (a r : ℝ) : ∀ (ts : List ℝ) (prev : ℝ) (i : ℕ),
    i + 1 < ts.length →
    (smoothFrom a r prev ts).getD (i + 1) 0 =
      smoothStep a r ((smoothFrom a r prev ts).getD i 0) (ts.getD (i + 1) 0)
  | [], _, _, h => by simp at h
  | x :: ts, prev, 0, h => by
    cases ts with
    | nil => simp at h
    | cons z ts' => simp [smoothFrom]
  | x :: ts, prev, i + 1, h => by
    have ih := smoothFrom_getD_succ a r ts (smoothStep a r prev x) i (by simpa using h)
    simpa [smoothFrom] using ih

theorem smooth_cons_getD (a r t0 : ℝ) (ts : List ℝ) (i : ℕ) (h1 : 1 ≤ i)
    (h2 : i < ts.length + 1) :
    (t0 :: smoothFrom a r t0 ts).getD i 0 =
      smoothStep a r ((t0 :: smoothFrom a r t0 ts).getD (i - 1) 0) ((t0 :: ts).getD i 0) := by
  obtain ⟨j, rfl⟩ : ∃ j, i = j + 1 := ⟨i - 1, by omega⟩
  cases j with
  | zero =>
    cases ts with
    | nil => simp at h2
    | cons z ts' => simp [smoothFrom]
  | succ k =>
    have hlt : k + 1 < ts.length := by omega
    have h := smoothFrom_getD_succ a r ts t0 k hlt
    simpa using h

theorem target_track_length (p : CompressorParams) (sig : List (List ℝ)) :
    (target_track p sig).length = numSamples sig := by
  simp [target_track]

theorem target_track_getD (p : CompressorParams) (sig : List (List ℝ)) (i : ℕ)
    (h : i < numSamples sig) :
    (target_track p sig).getD i 0 = target_gain_reduction p (max_amplitude sig i) := by
  unfold target_track
  rw [List.getD_eq_getElem?_getD, List.getElem?_map, List.getElem?_range h]
  rfl

theorem calculate_eq_ok (p : CompressorParams) (sig : List (List ℝ)) (sr : ℝ)
    (h2 : rank2 sig = true) (hsr : 0 < sr) (hn : numSamples sig ≠ 0) :
    calculate_gain_reduction p sig sr =
      Except.ok ((target_track p sig).headD 0 ::
        smoothFrom (attack_coeff p sr) (release_coeff p sr)
          ((target_track p sig).headD 0) (target_track p sig).tail) := by
  unfold calculate_gain_reduction
  rw [if_pos h2, if_neg (not_le.mpr hsr)]
  rcases htt : target_track p sig with _ | ⟨t, ts⟩
  · have hlen := target_track_length p sig
    rw [htt] at hlen
    exact absurd hlen.symm hn
  · simp [smooth_gain_reduction]

/-- C1 (amended): for every rank-2 block with at least one sample and
positive sample rate, the track returned by the gain-reduction computation
satisfies smoothed[0] = target[0] and, for i ≥ 1, the attack/release
recurrence of the claim; each coefficient equals
`exp(−1 / int(time_ms · sample_rate / 1000))` when that `int()`-truncated
time-in-samples is positive and 0 otherwise (the claim's untruncated
`exp(−1 / (time_ms · sample_rate / 1000))` is what fails). -/
theorem smoothing_recurrence (p : CompressorParams) (sig : List (List ℝ)) (sr : ℝ)
    (h2 : rank2 sig = true) (hsr : 0 < sr) (hn : 1 ≤ numSamples sig) :
    ∃ g, calculate_gain_reduction p sig sr = Except.ok g ∧
      g.length = numSamples sig ∧
      g.getD 0 0 = target_gain_reduction p (max_amplitude sig 0) ∧
      (∀ i, 1 ≤ i → i < numSamples sig →
        g.getD i 0 =
          if target_gain_reduction p (max_amplitude sig i) < g.getD (i - 1) 0 then
            attack_coeff p sr * g.getD (i - 1) 0 +
              (1 - attack_coeff p sr) * target_gain_reduction p (max_amplitude sig i)
          else
            release_coeff p sr * g.getD (i - 1) 0 +
              (1 - release_coeff p sr) * target_gain_reduction p (max_amplitude sig i)) ∧
      attack_coeff p sr =
        (if 0 < pyInt (p.attack_time_ms * sr / 1000) then
          Real.exp (-1 / (pyInt (p.attack_time_ms * sr / 1000) : ℝ)) else 0) ∧
      release_coeff p sr =
        (if 0 < pyInt (p.release_time_ms * sr / 1000) then
          Real.exp (-1 / (pyInt (p.release_time_ms * sr / 1000) : ℝ)) else 0) := by
  have hn0 : numSamples sig ≠ 0 := by omega
  have hcons : (target_track p sig).headD 0 :: (target_track p sig).tail =
      target_track p sig := by
    apply cons_headD_tail
    intro hempty
    have hlen := target_track_length p sig
    rw [hempty] at hlen
    exact hn0 hlen.symm
  have htlen : (target_track p sig).tail.length + 1 = numSamples sig := by
    have h := congrArg List.length hcons
    simpa [target_track_length] using h
  refine ⟨_, calculate_eq_ok p sig sr h2 hsr hn0, ?_, ?_, ?_, rfl, rfl⟩
  · rw [List.length_cons, smoothFrom_length]
    exact htlen
  · rw [List.getD_cons_zero, headD_eq_getD, target_track_getD p sig 0 (by omega)]
  · intro i h1i h2i
    have hstep := smooth_cons_getD (attack_coeff p sr) (release_coeff p sr)
      ((target_track p sig).headD 0) (target_track p sig).tail i h1i (by omega)
    rw [hstep, hcons, target_track_getD p sig i h2i, smoothStep]

/-- C1 witness: the recurrence theorem instantiated at the concrete
two-sample block [[1, 1/2]] with the standard parameters at 44100 Hz. -/
theorem smoothing_recurrence_witness :
    ∃ g, calculate_gain_reduction stdParams [[1, (1 : ℝ)/2]] 44100 = Except.ok g ∧
      g.length = numSamples [[1, (1 : ℝ)/2]] ∧
      g.getD 0 0 = target_gain_reduction stdParams (max_amplitude [[1, (1 : ℝ)/2]] 0) ∧
      (∀ i, 1 ≤ i → i < numSamples [[1, (1 : ℝ)/2]] →
        g.getD i 0 =
          if target_gain_reduction stdParams (max_amplitude [[1, (1 : ℝ)/2]] i) <
              g.getD (i - 1) 0 then
            attack_coeff stdParams 44100 * g.getD (i - 1) 0 +
              (1 - attack_coeff stdParams 44100) *
                target_gain_reduction stdParams (max_amplitude [[1, (1 : ℝ)/2]] i)
          else
            release_coeff stdParams 44100 * g.getD (i - 1) 0 +
              (1 - release_coeff stdParams 44100) *
                target_gain_reduction stdParams (max_amplitude [[1, (1 : ℝ)/2]] i)) ∧
      attack_coeff stdParams 44100 =
        (if 0 < pyInt (stdParams.attack_time_ms * 44100 / 1000) then
          Real.exp (-1 / (pyInt (stdParams.attack_time_ms * 44100 / 1000) : ℝ)) else 0) ∧
      release_coeff stdParams 44100 =
        (if 0 < pyInt (stdParams.release_time_ms * 44100 / 1000) then
          Real.exp (-1 / (pyInt (stdParams.release_time_ms * 44100 / 1000) : ℝ)) else 0) :=
  smoothing_recurrence stdParams [[1, (1 : ℝ)/2]] 44100 (by rfl) (by norm_num)
    (by norm_num [numSamples])

theorem limiter_threshold_linear_pos (p : LimiterParams) :
    0 < limiter_threshold_linear p :=
  Real.rpow_pos_of_pos (by norm_num) _

/-- C5 counterexample: the limiter's `process` succeeds on a valid block
with sample rate 0 — the `PeakLimiter` source validates only the block
shape, never the sample rate. -/
theorem limiter_no_sample_rate_check :
    limiter_process limParams [[0]] 0 = Except.ok [[0]] := by
  have htar : limiter_target limParams (max_amplitude [[0]] 0) = 1 := by
    unfold limiter_target
    rw [max_amplitude_single, abs_zero,
      if_neg (not_lt.mpr (le_of_lt (limiter_threshold_linear_pos limParams)))]
  have htrack : limiter_track limParams [[0]] = [1] := by
    unfold limiter_track
    rw [show numSamples [[(0 : ℝ)]] = 1 from rfl, show List.range 1 = [0] from rfl,
      List.map_cons, List.map_nil, htar]
  unfold limiter_process limiter_calculate_gain_reduction
  rw [if_pos (by rfl), htrack]
  simp [smooth_gain_reduction, smoothFrom, Except.map]

theorem process_error_iff (pc : CompressorParams) (sig : List (List ℝ)) (sr : ℝ)
    (e : PyError) :
    process pc sig sr = Except.error e ↔
      calculate_gain_reduction pc sig sr = Except.error e := by
  unfold process
  cases calculate_gain_reduction pc sig sr <;> simp [Except.map]

theorem limiter_process_error_iff (pl : LimiterParams) (sig : List (List ℝ)) (sr : ℝ)
    (e : PyError) :
    limiter_process pl sig sr = Except.error e ↔
      limiter_calculate_gain_reduction pl sig sr = Except.error e := by
  unfold limiter_process
  cases limiter_calculate_gain_reduction pl sig sr <;> simp [Except.map]

theorem limiter_track_length (p : LimiterParams) (sig : List (List ℝ)) :
    (limiter_track p sig).length = numSamples sig := by
  simp [limiter_track]

theorem calculate_error_classes (pc : CompressorParams) (sig : List (List ℝ)) (sr : ℝ) :
    (calculate_gain_reduction pc sig sr = Except.error PyError.valueError ↔
      rank2 sig = false ∨ sr ≤ 0) ∧
    (rank2 sig = true → 0 < sr →
      (calculate_gain_reduction pc sig sr = Except.error PyError.indexError ↔
        numSamples sig = 0)) := by
  cases h2 : rank2 sig with
  | false =>
    unfold calculate_gain_reduction
    rw [if_neg (by simp [h2])]
    exact ⟨by simp, fun h2t => absurd h2t (by simp [h2])⟩
  | true =>
    by_cases hsr : sr ≤ 0
    · unfold calculate_gain_reduction
      rw [if_pos h2, if_pos hsr]
      exact ⟨by simp [hsr], fun _ hpos => absurd hsr (not_le.mpr hpos)⟩
    · unfold calculate_gain_reduction
      rw [if_pos h2, if_neg hsr]
      by_cases hn : numSamples sig = 0
      · have htt : target_track pc sig = [] := by
          rw [← List.length_eq_zero, target_track_length]
          exact hn
        rw [htt]
        exact ⟨by simp [smooth_gain_reduction, hsr], fun _ _ => by
          simp [smooth_gain_reduction, hn]⟩
      · rcases htt : target_track pc sig with _ | ⟨t, ts⟩
        · exfalso
          have hlen := target_track_length pc sig
          rw [htt] at hlen
          exact hn hlen.symm
        · exact ⟨by simp [smooth_gain_reduction, hsr], fun _ _ => by
            simp [smooth_gain_reduction, hn]⟩

theorem limiter_error_classes (pl : LimiterParams) (sig : List (List ℝ)) (sr : ℝ) :
    (limiter_calculate_gain_reduction pl sig sr = Except.error PyError.valueError ↔
      rank2 sig = false) ∧
    (rank2 sig = true →
      (limiter_calculate_gain_reduction pl sig sr = Except.error PyError.indexError ↔
        numSamples sig = 0)) := by
  cases h2 : rank2 sig with
  | false =>
    unfold limiter_calculate_gain_reduction
    rw [if_neg (by simp [h2])]
    exact ⟨by simp, fun h2t => absurd h2t (by simp [h2])⟩
  | true =>
    unfold limiter_calculate_gain_reduction
    rw [if_pos h2]
    by_cases hn : numSamples sig = 0
    · have htt : limiter_track pl sig = [] := by
        rw [← List.length_eq_zero, limiter_track_length]
        exact hn
      rw [htt]
      exact ⟨by simp [smooth_gain_reduction], fun _ => by
        simp [smooth_gain_reduction, hn]⟩
    · rcases htt : limiter_track pl sig with _ | ⟨t, ts⟩
      · exfalso
        have hlen := limiter_track_length pl sig
        rw [htt] at hlen
        exact hn hlen.symm
      · exact ⟨by simp [smooth_gain_reduction], fun _ => by
          simp [smooth_gain_reduction, hn]⟩

/-- C5 (amended): the compressor's `process` raises `ValueError` exactly
when the block is not rank-2 or the sample rate is non-positive; the
limiter's `process` raises `ValueError` exactly when the block is not
rank-2 (its sample rate is never validated); and on validly shaped input
both additionally raise `IndexError` exactly when the block has zero
samples.  The validation errors depend only on the shape and sample rate,
never on the parameters or the samples, matching "raised before any gain
computation". -/
theorem error_conditions (pc : CompressorParams) (pl : LimiterParams)
    (sig : List (List ℝ)) (sr : ℝ) :
    (process pc sig sr = Except.error PyError.valueError ↔
      rank2 sig = false ∨ sr ≤ 0) ∧
    (limiter_process pl sig sr = Except.error PyError.valueError ↔
      rank2 sig = false) ∧
    (rank2 sig = true → 0 < sr →
      (process pc sig sr = Except.error PyError.indexError ↔ numSamples sig = 0)) ∧
    (rank2 sig = true →
      (limiter_process pl sig sr = Except.error PyError.indexError ↔
        numSamples sig = 0)) := by
  refine ⟨?_, ?_, fun h2 hpos => ?_, fun h2 => ?_⟩
  · rw [process_error_iff]
    exact (calculate_error_classes pc sig sr).1
  · rw [limiter_process_error_iff]
    exact (limiter_error_classes pl sig sr).1
  · rw [process_error_iff]
    exact (calculate_error_classes pc sig sr).2 h2 hpos
  · rw [limiter_process_error_iff]
    exact (limiter_error_classes pl sig sr).2 h2

/-- C5 witness: the error characterization instantiated on the concrete
valid one-sample block at 44100 Hz. -/
theorem error_conditions_witness :
    (process stdParams [[1]] 44100 = Except.error PyError.valueError ↔
      rank2 [[(1 : ℝ)]] = false ∨ (44100 : ℝ) ≤ 0) ∧
    (process stdParams [[1]] 44100 = Except.error PyError.indexError ↔
      numSamples [[(1 : ℝ)]] = 0) ∧
    (limiter_process limParams [[1]] 44100 = Except.error PyError.indexError ↔
      numSamples [[(1 : ℝ)]] = 0) := by
  obtain h := error_conditions stdParams limParams [[1]] 44100
  exact ⟨h.1, h.2.2.1 (by rfl) (by norm_num), h.2.2.2 (by rfl)⟩

theorem eps_pos : 0 < eps := by norm_num [eps]

theorem eps_rpow : eps = (10 : ℝ) ^ (-(10 : ℝ)) := by
  rw [Real.rpow_neg (by norm_num : (0 : ℝ) ≤ 10),
    show ((10 : ℝ) ^ (10 : ℝ)) = (10 : ℝ) ^ ((10 : ℕ) : ℝ) by norm_num,
    Real.rpow_natCast]
  norm_num [eps]

theorem threshold_linear_pos (p : CompressorParams) : 0 < threshold_linear p :=
  Real.rpow_pos_of_pos (by norm_num) _

theorem ampdB_gt_iff (p : CompressorParams) (m : ℝ) :
    amplitude_dB m > p.threshold ↔ threshold_linear p < max m eps := by
  have h0 : 0 < max m eps := lt_of_lt_of_le eps_pos (le_max_right m eps)
  unfold amplitude_dB threshold_linear
  constructor
  · intro h
    have hdiv : p.threshold / 20 < Real.logb 10 (max m eps) := by linarith
    exact (Real.lt_logb_iff_rpow_lt (by norm_num) h0).mp hdiv
  · intro h
    have hdiv : p.threshold / 20 < Real.logb 10 (max m eps) :=
      (Real.lt_logb_iff_rpow_lt (by norm_num) h0).mpr h
    linarith

theorem target_below (p : CompressorParams) (m : ℝ)
    (h : ¬ amplitude_dB m > p.threshold) : target_gain_reduction p m = 1 := by
  unfold target_gain_reduction desired_gain_reduction
  rw [if_neg h]
  by_cases hm : m = 0
  · rw [if_neg (by simpa using hm)]
  · rw [if_pos hm, div_self hm]

theorem compression_factor_above (p : CompressorParams) (adB : ℝ)
    (h : adB > p.threshold) : compression_factor p adB = p.ratio := by
  unfold compression_factor
  rw [if_neg (by intro hc; linarith [hc.2]), if_pos (le_of_lt h)]

theorem target_above (p : CompressorParams) (m : ℝ)
    (h : amplitude_dB m > p.threshold) (hm : 0 < m) :
    target_gain_reduction p m = (m / threshold_linear p) ^ (1 / p.ratio - 1) := by
  have hT : 0 < threshold_linear p := threshold_linear_pos p
  have hx : 0 < m / threshold_linear p := div_pos hm hT
  unfold target_gain_reduction desired_gain_reduction
  rw [if_pos (ne_of_gt hm), if_pos h, compression_factor_above p _ h]
  rw [show (1 / p.ratio - 1 : ℝ) = 1 / p.ratio + (-1) by ring,
    Real.rpow_add hx, Real.rpow_neg_one]
  rw [inv_div]
  field_simp
  ring

theorem foldr_max_nonneg : ∀ (l : List ℝ), 0 ≤ l.foldr max 0
  | [] => le_refl 0
  | x :: xs => le_trans (foldr_max_nonneg xs) (le_max_right x _)

theorem max_amplitude_nonneg (sig : List (List ℝ)) (i : ℕ) :
    0 ≤ max_amplitude sig i :=
  foldr_max_nonneg _

theorem target_mem (p : CompressorParams) (hr : 1 ≤ p.ratio)
    (hth : eps ≤ threshold_linear p) (m : ℝ) :
    0 < target_gain_reduction p m ∧ target_gain_reduction p m ≤ 1 := by
  by_cases habove : amplitude_dB m > p.threshold
  · have hmax : threshold_linear p < max m eps := (ampdB_gt_iff p m).mp habove
    have hmeps : eps < m := by
      rcases max_cases m eps with ⟨he, _⟩ | ⟨he, hme⟩
      · rw [he] at hmax
        exact lt_of_le_of_lt hth hmax
      · rw [he] at hmax
        exact absurd hth (not_le.mpr hmax)
    have hm : 0 < m := lt_trans eps_pos hmeps
    have hmT : threshold_linear p < m := by
      rw [max_eq_left (le_of_lt hmeps)] at hmax
      exact hmax
    rw [target_above p m habove hm]
    have hbase : 1 ≤ m / threshold_linear p :=
      (one_le_div (threshold_linear_pos p)).mpr (le_of_lt hmT)
    have hexp : 1 / p.ratio - 1 ≤ 0 := by
      have h1 : (1 : ℝ) / p.ratio ≤ 1 := by
        rw [div_le_one (by linarith : (0 : ℝ) < p.ratio)]
        exact hr
      linarith
    exact ⟨Real.rpow_pos_of_pos (by linarith) _,
      Real.rpow_le_one_of_one_le_of_nonpos hbase hexp⟩
  · rw [target_below p m habove]
    norm_num

theorem smoothing_coeff_mem (t sr : ℝ) :
    0 ≤ smoothing_coeff t sr ∧ smoothing_coeff t sr < 1 := by
  unfold smoothing_coeff
  split
  case isTrue h =>
    have hN : (1 : ℝ) ≤ (time_samples t sr : ℝ) := by
      exact_mod_cast h
    refine ⟨le_of_lt (Real.exp_pos _), ?_⟩
    rw [Real.exp_lt_one_iff]
    apply div_neg_of_neg_of_pos
    · norm_num
    · linarith
  case isFalse h => norm_num

theorem smoothStep_mem (a r prev x : ℝ) (ha0 : 0 ≤ a) (ha1 : a < 1)
    (hr0 : 0 ≤ r) (hr1 : r < 1) (hp0 : 0 < prev) (hp1 : prev ≤ 1)
    (hx0 : 0 < x) (hx1 : x ≤ 1) :
    0 < smoothStep a r prev x ∧ smoothStep a r prev x ≤ 1 := by
  unfold smoothStep
  split
  · constructor
    · nlinarith [mul_nonneg ha0 (le_of_lt hp0)]
    · nlinarith [mul_nonneg ha0 (sub_nonneg.mpr hp1)]
  · constructor
    · nlinarith [mul_nonneg hr0 (le_of_lt hp0)]
    · nlinarith [mul_nonneg hr0 (sub_nonneg.mpr hp1)]

theorem smoothFrom_mem (a r : ℝ) (ha0 : 0 ≤ a) (ha1 : a < 1)
    (hr0 : 0 ≤ r) (hr1 : r < 1) :
    ∀ (xs : List ℝ) (prev : ℝ), 0 < prev → prev ≤ 1 →
      (∀ x ∈ xs, 0 < x ∧ x ≤ 1) →
      ∀ y ∈ smoothFrom a r prev xs, 0 < y ∧ y ≤ 1
  | [], _, _, _, _ => by simp [smoothFrom]
  | x :: xs, prev, hp0, hp1, hxs => by
    intro y hy
    have hx := hxs x (List.mem_cons_self x xs)
    have hstep := smoothStep_mem a r prev x ha0 ha1 hr0 hr1 hp0 hp1 hx.1 hx.2
    rw [smoothFrom] at hy
    rcases List.mem_cons.mp hy with rfl | hy'
    · exact hstep
    · exact smoothFrom_mem a r ha0 ha1 hr0 hr1 xs (smoothStep a r prev x)
        hstep.1 hstep.2 (fun z hz => hxs z (List.mem_cons_of_mem x hz)) y hy'

theorem target_track_mem (p : CompressorParams) (hr : 1 ≤ p.ratio)
    (hth : eps ≤ threshold_linear p) (sig : List (List ℝ)) :
    ∀ y ∈ target_track p sig, 0 < y ∧ y ≤ 1 := by
  intro y hy
  unfold target_track at hy
  obtain ⟨i, _, rfl⟩ := List.mem_map.mp hy
  exact target_mem p hr hth (max_amplitude sig i)

/-- C7 (amended): for a threshold of at least −200 dB (threshold_linear at
least the 1e-10 amplitude floor) and ratio ≥ 1, every element of the
stored gain-reduction track lies in (0, 1].  For thresholds below −200 dB
the code has no clamp and the track can exceed 1 (see the counterexample). -/
theorem track_in_unit_interval (p : CompressorParams) (sig : List (List ℝ)) (sr : ℝ)
    (hr : 1 ≤ p.ratio) (hth : eps ≤ threshold_linear p) (g : List ℝ)
    (hg : calculate_gain_reduction p sig sr = Except.ok g) :
    ∀ y ∈ g, 0 < y ∧ y ≤ 1 := by
  unfold calculate_gain_reduction at hg
  by_cases h2 : rank2 sig
  · rw [if_pos h2] at hg
    by_cases hsr : sr ≤ 0
    · rw [if_pos hsr] at hg
      exact absurd hg (by simp)
    · rw [if_neg hsr] at hg
      rcases htt : target_track p sig with _ | ⟨t, ts⟩
      · rw [htt] at hg
        exact absurd hg (by simp [smooth_gain_reduction])
      · rw [htt] at hg
        simp only [smooth_gain_reduction] at hg
        have hgv : g = t :: smoothFrom (attack_coeff p sr) (release_coeff p sr) t ts := by
          cases hg
          rfl
        have hmem := target_track_mem p hr hth sig
        rw [htt] at hmem
        have ht := hmem t (List.mem_cons_self t ts)
        intro y hy
        rw [hgv] at hy
        rcases List.mem_cons.mp hy with rfl | hy'
        · exact ht
        · exact smoothFrom_mem (attack_coeff p sr) (release_coeff p sr)
            (smoothing_coeff_mem _ _).1 (smoothing_coeff_mem _ _).2
            (smoothing_coeff_mem _ _).1 (smoothing_coeff_mem _ _).2
            ts t ht.1 ht.2
            (fun z hz => hmem z (List.mem_cons_of_mem t hz)) y hy'
  · rw [if_neg h2] at hg
    exact absurd hg (by simp)

/-- C7 witness: the interval invariant applied to the concrete standard
run, whose single track element is `10^(−3/8)`. -/
theorem track_in_unit_interval_witness :
    0 < (10 : ℝ) ^ (-(3 : ℝ)/8) ∧ (10 : ℝ) ^ (-(3 : ℝ)/8) ≤ 1 :=
  track_in_unit_interval stdParams [[1]] 44100 (by norm_num [stdParams])
    (by
      rw [eps_rpow]
      rw [show threshold_linear stdParams = (10 : ℝ) ^ (-(1 : ℝ)/2) from threshold_linear_std]
      exact Real.rpow_le_rpow_of_exponent_le (by norm_num) (by norm_num))
    [(10 : ℝ) ^ (-(3 : ℝ)/8)] calculate_std_single
    ((10 : ℝ) ^ (-(3 : ℝ)/8)) (List.mem_singleton.mpr rfl)

theorem target_zero (p : CompressorParams) : target_gain_reduction p 0 = 1 := by
  unfold target_gain_reduction
  simp

theorem target_cex_eval :
    target_gain_reduction cexParams 1e-13 = (10 : ℝ) ^ ((3 : ℝ)/4) := by
  have hdb : amplitude_dB 1e-13 = -200 := by
    unfold amplitude_dB
    rw [max_eq_right (by norm_num [eps]), eps_rpow,
      Real.logb_rpow (by norm_num) (by norm_num)]
    norm_num
  have hth : threshold_linear cexParams = (10 : ℝ) ^ (-(12 : ℝ)) := by
    unfold threshold_linear
    norm_num [cexParams]
  have hgt : (-200 : ℝ) > cexParams.threshold := by norm_num [cexParams]
  have he13 : (1e-13 : ℝ) = (10 : ℝ) ^ (-(13 : ℝ)) := by
    rw [Real.rpow_neg (by norm_num : (0 : ℝ) ≤ 10),
      show ((10 : ℝ) ^ (13 : ℝ)) = (10 : ℝ) ^ ((13 : ℕ) : ℝ) by norm_num,
      Real.rpow_natCast]
    norm_num
  unfold target_gain_reduction desired_gain_reduction
  rw [if_pos (by norm_num : (1e-13 : ℝ) ≠ 0), hdb, if_pos hgt,
    compression_factor_above cexParams (-200) hgt,
    show (1 : ℝ) / cexParams.ratio = 1/4 by norm_num [cexParams], hth, he13,
    div_eq_mul_inv ((10 : ℝ) ^ (-(13 : ℝ))), ← Real.rpow_neg (by norm_num : (0 : ℝ) ≤ 10),
    ← Real.rpow_add (by norm_num : (0 : ℝ) < 10),
    ← Real.rpow_mul (by norm_num : (0 : ℝ) ≤ 10),
    ← Real.rpow_add (by norm_num : (0 : ℝ) < 10),
    div_eq_mul_inv, ← Real.rpow_neg (by norm_num : (0 : ℝ) ≤ 10),
    ← Real.rpow_add (by norm_num : (0 : ℝ) < 10)]
  norm_num

/-- C7 counterexample: with threshold −240 dB (ratio 4, hard knee) the
single-sample block [[1e-13]] at 44100 Hz yields a stored gain-reduction
track whose element is `10^(3/4) ≈ 5.62 > 1`: there is no clamp to [0, 1]
in the source, and below the −200 dB amplitude floor the target formula
exceeds one. -/
theorem track_exceeds_one_counterexample :
    calculate_gain_reduction cexParams [[1e-13]] 44100 =
        Except.ok [(10 : ℝ) ^ ((3 : ℝ)/4)] ∧
      1 < (10 : ℝ) ^ ((3 : ℝ)/4) := by
  constructor
  · have htt : target_track cexParams [[1e-13]] = [(10 : ℝ) ^ ((3 : ℝ)/4)] := by
      unfold target_track
      rw [show numSamples [[(1e-13 : ℝ)]] = 1 from rfl, show List.range 1 = [0] from rfl,
        List.map_cons, List.map_nil, max_amplitude_single,
        abs_of_pos (by norm_num : (0 : ℝ) < 1e-13), target_cex_eval]
    unfold calculate_gain_reduction
    rw [if_pos (by rfl), if_neg (by norm_num), htt]
    rfl
  · rw [show (1 : ℝ) = (10 : ℝ) ^ (0 : ℝ) from (Real.rpow_zero 10).symm]
    exact Real.rpow_lt_rpow_of_exponent_lt (by norm_num) (by norm_num)

theorem amplitude_dB_lt_imp (m1 m2 : ℝ) (h : amplitude_dB m1 < amplitude_dB m2) :
    max m1 eps < max m2 eps := by
  have h1 : 0 < max m1 eps := lt_of_lt_of_le eps_pos (le_max_right _ _)
  have h2 : 0 < max m2 eps := lt_of_lt_of_le eps_pos (le_max_right _ _)
  have hl : Real.logb 10 (max m1 eps) < Real.logb 10 (max m2 eps) := by
    unfold amplitude_dB at h
    linarith
  exact (Real.logb_lt_logb_iff (by norm_num) h1 h2).mp hl

/-- C8: for a hard-knee compressor with ratio ≥ 1 and any two amplitudes
whose instantaneous levels L1 < L2 are both at or above the threshold, the
target gain reduction at the louder level is at most the one at the
quieter level. -/
theorem hard_knee_monotonicity (p : CompressorParams) (_hk : p.knee_width = 0)
    (hr : 1 ≤ p.ratio) (a1 a2 : ℝ) (ha1 : 0 ≤ a1) (_ha2 : 0 ≤ a2)
    (hL : amplitude_dB a1 < amplitude_dB a2) (hth : p.threshold ≤ amplitude_dB a1) :
    target_gain_reduction p a2 ≤ target_gain_reduction p a1 := by
  have hT : 0 < threshold_linear p := threshold_linear_pos p
  have hmax := amplitude_dB_lt_imp a1 a2 hL
  have ha2eps : eps < a2 := by
    by_contra hc
    push_neg at hc
    rw [max_eq_right hc] at hmax
    exact absurd hmax (not_lt.mpr (le_max_right a1 eps))
  have ha2pos : 0 < a2 := lt_trans eps_pos ha2eps
  have hmax2 : max a2 eps = a2 := max_eq_left (le_of_lt ha2eps)
  have hdb2 : amplitude_dB a2 > p.threshold := lt_of_le_of_lt hth hL
  have hTa2 : threshold_linear p < a2 := by
    have h := (ampdB_gt_iff p a2).mp hdb2
    rwa [hmax2] at h
  have hexp : 1 / p.ratio - 1 ≤ 0 := by
    have h1 : (1 : ℝ) / p.ratio ≤ 1 := by
      rw [div_le_one (by linarith : (0 : ℝ) < p.ratio)]
      exact hr
    linarith
  have hle1 : (a2 / threshold_linear p) ^ (1 / p.ratio - 1) ≤ 1 :=
    Real.rpow_le_one_of_one_le_of_nonpos
      ((one_le_div hT).mpr (le_of_lt hTa2)) hexp
  rw [target_above p a2 hdb2 ha2pos]
  by_cases hdb1 : amplitude_dB a1 > p.threshold
  · by_cases ha1z : a1 = 0
    · rw [ha1z, target_zero]
      exact hle1
    · have ha1pos : 0 < a1 := lt_of_le_of_ne ha1 (Ne.symm ha1z)
      rw [target_above p a1 hdb1 ha1pos]
      have ha12 : a1 ≤ a2 := by
        by_cases hcase : a1 ≤ eps
        · linarith
        · push_neg at hcase
          rw [max_eq_left (le_of_lt hcase), hmax2] at hmax
          exact le_of_lt hmax
      exact Real.rpow_le_rpow_of_nonpos (div_pos ha1pos hT)
        ((div_le_div_right hT).mpr ha12) hexp
  · rw [target_below p a1 hdb1]
    exact hle1

theorem amplitude_dB_ten : amplitude_dB 10 = 20 := by
  unfold amplitude_dB
  rw [max_eq_left (by norm_num [eps]), Real.logb_self_eq_one (by norm_num)]
  norm_num

/-- C8 witness: with the standard parameters the amplitudes 1 (0 dB) and
10 (20 dB) are both at or above the −10 dB threshold and the louder one is
attenuated at least as much. -/
theorem hard_knee_monotonicity_witness :
    target_gain_reduction stdParams 10 ≤ target_gain_reduction stdParams 1 :=
  hard_knee_monotonicity stdParams (by rfl) (by norm_num [stdParams]) 1 10
    (by norm_num) (by norm_num)
    (by rw [amplitude_dB_one, amplitude_dB_ten]; norm_num)
    (by rw [amplitude_dB_one]; norm_num [stdParams])

theorem knee_width_inert (p : CompressorParams) (k : ℝ) (m : ℝ) :
    target_gain_reduction p m = target_gain_reduction { p with knee_width := k } m := by
  unfold target_gain_reduction desired_gain_reduction
  by_cases habove : amplitude_dB m > p.threshold
  · rw [if_pos habove, if_pos habove, compression_factor_above p _ habove,
      compression_factor_above { p with knee_width := k } _ habove]
    rfl
  · rw [if_neg habove, if_neg habove]

theorem threshold_linear_knee : threshold_linear kneeParams = 1 := by
  unfold threshold_linear
  rw [show kneeParams.threshold / 20 = (0 : ℝ) by norm_num [kneeParams], Real.rpow_zero]

theorem knee_target_left (a : ℝ) (h1 : 1/2 < a) (h2 : a ≤ 1) :
    target_gain_reduction kneeParams a = 1 := by
  apply target_below
  intro habove
  have h := (ampdB_gt_iff kneeParams a).mp habove
  rw [threshold_linear_knee,
    max_eq_left (le_trans (by norm_num [eps] : eps ≤ 1/2) (le_of_lt h1))] at h
  linarith

theorem knee_target_right (a : ℝ) (h1 : 1 ≤ a) :
    target_gain_reduction kneeParams a = a ^ ((-3 : ℝ)/4) := by
  rcases eq_or_lt_of_le h1 with rfl | hgt
  · rw [knee_target_left 1 (by norm_num) le_rfl, Real.one_rpow]
  · have hpos : 0 < a := by linarith
    have habove : amplitude_dB a > kneeParams.threshold := by
      rw [ampdB_gt_iff kneeParams a, threshold_linear_knee,
        max_eq_left (le_trans (by norm_num [eps] : eps ≤ 1) (le_of_lt hgt))]
      exact hgt
    rw [target_above kneeParams a habove hpos, threshold_linear_knee, div_one,
      show (1 : ℝ) / kneeParams.ratio - 1 = (-3 : ℝ)/4 by norm_num [kneeParams]]

theorem rpow_tenth_bounds :
    1 < (10 : ℝ) ^ ((1 : ℝ)/10) ∧ (10 : ℝ) ^ ((1 : ℝ)/10) < 2 := by
  constructor
  · rw [show (1 : ℝ) = (10 : ℝ) ^ (0 : ℝ) from (Real.rpow_zero 10).symm]
    exact Real.rpow_lt_rpow_of_exponent_lt (by norm_num) (by norm_num)
  · have hx : ((10 : ℝ) ^ ((1 : ℝ)/10)) ^ (10 : ℕ) = 10 := by
      rw [← Real.rpow_natCast ((10 : ℝ) ^ ((1 : ℝ)/10)) 10,
        ← Real.rpow_mul (by norm_num : (0 : ℝ) ≤ 10),
        show (1 : ℝ)/10 * ((10 : ℕ) : ℝ) = 1 by norm_num, Real.rpow_one]
    apply lt_of_pow_lt_pow_left 10 (by norm_num : (0 : ℝ) ≤ 2)
    rw [hx]
    norm_num

theorem rpow_neg_tenth_bounds :
    1/2 < (10 : ℝ) ^ (-(1 : ℝ)/10) ∧ (10 : ℝ) ^ (-(1 : ℝ)/10) < 1 := by
  have hneg : (10 : ℝ) ^ (-(1 : ℝ)/10) = ((10 : ℝ) ^ ((1 : ℝ)/10))⁻¹ := by
    rw [show -(1 : ℝ)/10 = -((1 : ℝ)/10) by ring,
      Real.rpow_neg (by norm_num : (0 : ℝ) ≤ 10)]
  have hpos : (0 : ℝ) < (10 : ℝ) ^ ((1 : ℝ)/10) := Real.rpow_pos_of_pos (by norm_num) _
  constructor
  · rw [hneg, show (1 : ℝ)/2 = (2 : ℝ)⁻¹ by norm_num]
    exact inv_lt_inv_of_lt hpos rpow_tenth_bounds.2
  · rw [hneg]
    exact inv_lt_one rpow_tenth_bounds.1

theorem amplitude_dB_rpow (x : ℝ) (hx : -10 ≤ x) :
    amplitude_dB ((10 : ℝ) ^ x) = 20 * x := by
  unfold amplitude_dB
  rw [max_eq_left (by
      rw [eps_rpow]
      exact Real.rpow_le_rpow_of_exponent_le (by norm_num) hx),
    Real.logb_rpow (by norm_num) (by norm_num)]

theorem knee_continuous_left :
    ContinuousAt (fun a => target_gain_reduction kneeParams a) ((10 : ℝ) ^ (-(1 : ℝ)/10)) := by
  have ha := rpow_neg_tenth_bounds
  have hmem : Set.Ioo (1/2 : ℝ) 1 ∈ nhds ((10 : ℝ) ^ (-(1 : ℝ)/10)) :=
    isOpen_Ioo.mem_nhds ⟨ha.1, ha.2⟩
  have hev : (fun a => target_gain_reduction kneeParams a)
      =ᶠ[nhds ((10 : ℝ) ^ (-(1 : ℝ)/10))] fun _ => 1 :=
    Filter.eventuallyEq_of_mem hmem fun a hx => knee_target_left a hx.1 (le_of_lt hx.2)
  exact continuousAt_const.congr hev.symm

theorem knee_continuous_right :
    ContinuousAt (fun a => target_gain_reduction kneeParams a) ((10 : ℝ) ^ ((1 : ℝ)/10)) := by
  have ha := rpow_tenth_bounds
  have hpos : (0 : ℝ) < (10 : ℝ) ^ ((1 : ℝ)/10) := Real.rpow_pos_of_pos (by norm_num) _
  have hg : ContinuousAt (fun a : ℝ => a ^ ((-3 : ℝ)/4)) ((10 : ℝ) ^ ((1 : ℝ)/10)) :=
    Real.continuousAt_rpow_const _ _ (Or.inl (ne_of_gt hpos))
  have hmem : Set.Ioi (1 : ℝ) ∈ nhds ((10 : ℝ) ^ ((1 : ℝ)/10)) := isOpen_Ioi.mem_nhds ha.1
  have hev : (fun a => target_gain_reduction kneeParams a)
      =ᶠ[nhds ((10 : ℝ) ^ ((1 : ℝ)/10))] fun a : ℝ => a ^ ((-3 : ℝ)/4) :=
    Filter.eventuallyEq_of_mem hmem fun a hx => knee_target_right a (le_of_lt hx)
  exact hg.congr hev.symm

/-- C2 counterexample: with threshold 0 dB, ratio 4 and knee width 4 dB,
the level 0 dB (amplitude 1) lies strictly inside the symmetric knee
region (−2 dB, +2 dB), yet the target gain-reduction curve is not
differentiable there — left of the threshold it is constantly 1 and right
of it it is the hard-knee power law with one-sided slope −3/4 — so no
smooth interpolation is applied strictly inside the knee. -/
theorem knee_not_smooth_counterexample :
    (kneeParams.threshold - kneeParams.knee_width/2 < amplitude_dB 1 ∧
      amplitude_dB 1 < kneeParams.threshold + kneeParams.knee_width/2) ∧
    ¬ DifferentiableAt ℝ (fun a => target_gain_reduction kneeParams a) 1 := by
  constructor
  · rw [amplitude_dB_one]
    constructor <;> norm_num [kneeParams]
  · intro hdiff
    have hD := hdiff.hasDerivAt
    have hf1 : target_gain_reduction kneeParams 1 = 1 :=
      knee_target_left 1 (by norm_num) le_rfl
    have hevL : (fun a => target_gain_reduction kneeParams a)
        =ᶠ[nhdsWithin 1 (Set.Iic 1)] fun _ => 1 := by
      have hmem : Set.Ioi (1/2 : ℝ) ∩ Set.Iic 1 ∈ nhdsWithin 1 (Set.Iic 1) :=
        Filter.inter_mem
          (mem_nhdsWithin_of_mem_nhds (isOpen_Ioi.mem_nhds (by norm_num)))
          self_mem_nhdsWithin
      exact Filter.eventuallyEq_of_mem hmem fun a hx => knee_target_left a hx.1 hx.2
    have hleft : HasDerivWithinAt (fun a => target_gain_reduction kneeParams a) 0
        (Set.Iic 1) 1 :=
      HasDerivWithinAt.congr_of_eventuallyEq
        (hasDerivWithinAt_const 1 (Set.Iic 1) (1 : ℝ)) hevL hf1
    have hg : HasDerivAt (fun a : ℝ => a ^ ((-3 : ℝ)/4))
        ((-3 : ℝ)/4 * (1 : ℝ) ^ ((-3 : ℝ)/4 - 1)) 1 :=
      Real.hasDerivAt_rpow_const (Or.inl one_ne_zero)
    have hg' : HasDerivAt (fun a : ℝ => a ^ ((-3 : ℝ)/4)) ((-3 : ℝ)/4) 1 := by
      convert hg using 1
      rw [Real.one_rpow]
      ring
    have hevR : (fun a => target_gain_reduction kneeParams a)
        =ᶠ[nhdsWithin 1 (Set.Ici 1)] fun a : ℝ => a ^ ((-3 : ℝ)/4) :=
      Filter.eventuallyEq_of_mem self_mem_nhdsWithin fun a hx => knee_target_right a hx
    have hf1' : target_gain_reduction kneeParams 1 = (1 : ℝ) ^ ((-3 : ℝ)/4) := by
      rw [hf1, Real.one_rpow]
    have hright : HasDerivWithinAt (fun a => target_gain_reduction kneeParams a)
        ((-3 : ℝ)/4) (Set.Ici 1) 1 :=
      HasDerivWithinAt.congr_of_eventuallyEq hg'.hasDerivWithinAt hevR hf1'
    have hu1 : UniqueDiffWithinAt ℝ (Set.Iic (1 : ℝ)) 1 :=
      uniqueDiffOn_Iic 1 1 Set.right_mem_Iic
    have hu2 : UniqueDiffWithinAt ℝ (Set.Ici (1 : ℝ)) 1 :=
      uniqueDiffOn_Ici 1 1 Set.left_mem_Ici
    have e1 : derivWithin (fun a => target_gain_reduction kneeParams a) (Set.Iic 1) 1 = 0 :=
      hleft.derivWithin hu1
    have e2 : derivWithin (fun a => target_gain_reduction kneeParams a) (Set.Iic 1) 1 =
        deriv (fun a => target_gain_reduction kneeParams a) 1 :=
      (hD.hasDerivWithinAt).derivWithin hu1
    have e3 : derivWithin (fun a => target_gain_reduction kneeParams a) (Set.Ici 1) 1 =
        (-3 : ℝ)/4 := hright.derivWithin hu2
    have e4 : derivWithin (fun a => target_gain_reduction kneeParams a) (Set.Ici 1) 1 =
        deriv (fun a => target_gain_reduction kneeParams a) 1 :=
      (hD.hasDerivWithinAt).derivWithin hu2
    rw [e2] at e1
    rw [e4] at e3
    rw [e1] at e3
    norm_num at e3

/-- C2 (amended): the knee width has no effect on the target curve — the
interpolated compression factor is computed but never used, because the
gain-reduction formula applies it only strictly above the threshold where
the factor equals the ratio.  The target is exactly 1 at levels at or
below the threshold and the hard-knee power law above it; the curve is
continuous at both symmetric knee boundaries (for the concrete soft-knee
parameter set, at amplitudes `10^(−1/10)` and `10^(1/10)`, i.e. levels
−2 dB and +2 dB); and with knee width 0 the curve trivially coincides
with every positive-knee curve. -/
theorem soft_knee_behavior (p : CompressorParams) (k : ℝ) :
    (∀ m, target_gain_reduction p m =
      target_gain_reduction { p with knee_width := k } m) ∧
    (∀ m, ¬ amplitude_dB m > p.threshold → target_gain_reduction p m = 1) ∧
    (∀ m, 0 < m → amplitude_dB m > p.threshold →
      target_gain_reduction p m = (m / threshold_linear p) ^ (1 / p.ratio - 1)) ∧
    ContinuousAt (fun a => target_gain_reduction kneeParams a) ((10 : ℝ) ^ (-(1 : ℝ)/10)) ∧
    ContinuousAt (fun a => target_gain_reduction kneeParams a) ((10 : ℝ) ^ ((1 : ℝ)/10)) ∧
    amplitude_dB ((10 : ℝ) ^ (-(1 : ℝ)/10)) =
      kneeParams.threshold - kneeParams.knee_width/2 ∧
    amplitude_dB ((10 : ℝ) ^ ((1 : ℝ)/10)) =
      kneeParams.threshold + kneeParams.knee_width/2 := by
  refine ⟨fun m => knee_width_inert p k m, fun m h => target_below p m h,
    fun m hm h => target_above p m h hm, knee_continuous_left, knee_continuous_right, ?_, ?_⟩
  · rw [amplitude_dB_rpow (-(1 : ℝ)/10) (by norm_num)]
    norm_num [kneeParams]
  · rw [amplitude_dB_rpow ((1 : ℝ)/10) (by norm_num)]
    norm_num [kneeParams]

/-- C2 witness: inside the knee of the concrete soft-knee parameter set the
curve agrees with the hard-knee (knee width 0) curve and equals 1 at the
−1 dB level. -/
theorem soft_knee_behavior_witness :
    target_gain_reduction kneeParams ((10 : ℝ) ^ (-(1 : ℝ)/20)) =
        target_gain_reduction { kneeParams with knee_width := 0 }
          ((10 : ℝ) ^ (-(1 : ℝ)/20)) ∧
      target_gain_reduction kneeParams ((10 : ℝ) ^ (-(1 : ℝ)/20)) = 1 := by
  refine ⟨(soft_knee_behavior kneeParams 0).1 ((10 : ℝ) ^ (-(1 : ℝ)/20)), ?_⟩
  apply (soft_knee_behavior kneeParams 0).2.1 ((10 : ℝ) ^ (-(1 : ℝ)/20))
  rw [amplitude_dB_rpow (-(1 : ℝ)/20) (by norm_num)]
  norm_num [kneeParams]

end Audiocomplib
